import Mathlib

/-!
Verification development for `dsp/templates/template_v2.py`: the template
compiler (`TemplateV2.__init__`), the query renderer (`TemplateV2.query`),
the guideline renderer (`TemplateV2.guidelines`), the verbosity classifier
(`TemplateV2._has_augmented_guidelines`), the extractor (`TemplateV2.extract`)
and the prompt assembler (`TemplateV2.__call__`).

Python strings are embedded as `List Char` (`Str`).  Python `None`-able
values stored in a `dsp.Example` are embedded as `PyVal`; an example's
mapping is an ordered association list (`Vals`) with Python-dict update
semantics.  Fallible code returns `Except PyErr`.  In-place mutation of an
example by a method is made explicit by returning the example's content
after the call alongside the ordinary return value.
-/

set_option autoImplicit false

namespace TemplateV2

/-- Python strings, embedded as lists of characters. -/
abbrev Str := List Char

/-- Python `str.isspace` / the `\s` class and `str.strip()` default set,
restricted to the ASCII whitespace characters that can occur here. -/
def isPySpace (c : Char) : Bool :=
  c = ' ' || c = '\t' || c = '\n' || c = '\r' || c = '\x0b' || c = '\x0c'

/-- `s.lstrip()`: drop leading whitespace. -/
def lstrip (s : Str) : Str := s.dropWhile isPySpace

/-- `s.rstrip(chars)` for a character class `p`: drop trailing characters
satisfying `p`. -/
def rstripOn (p : Char → Bool) (s : Str) : Str := (s.reverse.dropWhile p).reverse

/-- `s.rstrip()`: drop trailing whitespace. -/
def rstrip (s : Str) : Str := rstripOn isPySpace s

/-- `s.rstrip("---")`: Python treats the argument as a character set, so this
drops every trailing `'-'`. -/
def rstripDashes (s : Str) : Str := rstripOn (fun c => c = '-') s

/-- `s.strip()`: drop leading and trailing whitespace. -/
def pyStrip (s : Str) : Str := rstrip (lstrip s)

/-- `hay.find(needle)` (Python `str.find`), returning the offset of the first
occurrence, or `none` for `-1`. -/
def pyFind (needle : Str) : Str → Option Nat
  | [] => if needle.isEmpty then some 0 else none
  | c :: t => if needle.isPrefixOf (c :: t) then some 0 else (pyFind needle t).map (· + 1)

/-- Python `needle in hay` for strings. -/
def isSubstr (needle hay : Str) : Bool := (pyFind needle hay).isSome

/-- `sep.join(parts)`. -/
def pyJoin (sep : Str) : List Str → Str
  | [] => []
  | [x] => x
  | x :: y :: l => x ++ sep ++ pyJoin sep (y :: l)

/-- Accumulator pass behind `pyWords`; `acc` holds the current word reversed. -/
def pyWordsAux : Str → Str → List Str
  | [], acc => if acc.isEmpty then [] else [acc.reverse]
  | c :: t, acc =>
    if isPySpace c then
      if acc.isEmpty then pyWordsAux t [] else acc.reverse :: pyWordsAux t []
    else pyWordsAux t (c :: acc)

/-- `s.split()`: split on whitespace runs, discarding empty pieces. -/
def pyWords (s : Str) : List Str := pyWordsAux s []

/-- `" ".join(ws)`. -/
def joinSpace : List Str → Str
  | [] => []
  | [w] => w
  | w :: x :: l => w ++ ' ' :: joinSpace (x :: l)

/-- The default format handler body `" ".join(x.split())`
(`template_v2.py:104`): whitespace normalization. -/
def normWs (s : Str) : Str := joinSpace (pyWords s)

/-- A Python value held in a `dsp.Example` slot: `None`, a bool, or a string. -/
inductive PyVal where
  | none : PyVal
  | bool : Bool → PyVal
  | str : Str → PyVal
  deriving DecidableEq, Repr

/-- The ordered mapping inside a `dsp.Example`: association list with
Python-dict semantics (`pyGet`, `pySet`, `pyDel`, membership). -/
abbrev Vals := List (Str × PyVal)

/-- `example[k]` lookup, `none` when the key is absent. -/
def pyGet : Vals → Str → Option PyVal
  | [], _ => Option.none
  | (k', v) :: t, k => if k' = k then some v else pyGet t k

/-- `k in example`. -/
def pyMem (ex : Vals) (k : Str) : Bool := (pyGet ex k).isSome

/-- `example.get(k, d)`. -/
def pyGetD (ex : Vals) (k : Str) (d : PyVal) : PyVal := (pyGet ex k).getD d

/-- `example[k] = v`: overwrite in place, or append a new entry. -/
def pySet : Vals → Str → PyVal → Vals
  | [], k, v => [(k, v)]
  | (k', v') :: t, k, v => if k' = k then (k, v) :: t else (k', v') :: pySet t k v

/-- `del example[k]`. -/
def pyDel : Vals → Str → Vals
  | [], _ => []
  | (k', v') :: t, k => if k' = k then t else (k', v') :: pyDel t k

/-- Python truthiness of a `PyVal` (used by `demo.get("augmented", False)`). -/
def pyTruthy : PyVal → Bool
  | .none => false
  | .bool b => b
  | .str s => !s.isEmpty

/-- Decidable equality of `Except` results, for evaluating the embedded
functions on concrete inputs. -/
instance {ε α : Type} [DecidableEq ε] [DecidableEq α] : DecidableEq (Except ε α) := by
  intro a b
  cases a <;> cases b <;>
    first
      | (apply isFalse; intro h; exact Except.noConfusion h)
      | (rename_i x y
         exact if h : x = y then isTrue (by rw [h]) else
           isFalse (fun hc => h (by cases hc; rfl)))

/-- The Python exceptions the embedded code can raise. -/
inductive PyErr where
  /-- `TypeError`: the `Field` namedtuple declares a 6th component `input`
  (`template_v2.py:10`) but the constructor call in `__init__`
  (`template_v2.py:59-67`) passes only 5 keyword arguments. -/
  | typeErrorMissingInput : PyErr
  /-- `AttributeError`: `re.search("(.*)\n", template)` returned `None` and
  `.group(1)` was taken (`template_v2.py:30`). -/
  | attributeError : PyErr
  /-- `ValueError("Could not parse template")` (`template_v2.py:49`). -/
  | valueErrorParse : PyErr
  /-- `IndexError`: `self.fields[0]` / `self.fields[-1]` on an empty list. -/
  | indexError : PyErr
  /-- `AssertionError` from the default format handler's
  `assert type(x) == str` (`template_v2.py:103`). -/
  | assertionError : PyErr
  /-- `TypeError: argument of type 'NoneType' is not iterable` from
  `"\n" in field.description` when `description` is `None`
  (`template_v2.py:140`). -/
  | typeErrorNoneIterable : PyErr
  deriving DecidableEq, Repr

/-- `Field` descriptor (`template_v2.py:10`):
`namedtuple("Field", "name separator input_variable output_variable description input")`. -/
structure Field where
  name : Str
  separator : Str
  input_variable : Str
  output_variable : Str
  description : Option Str
  input : Bool
  deriving DecidableEq, Repr

/-- The injected format-handler registry (external collaborator; the
registered handlers are opaque functions from a value to a string). -/
abbrev Handlers := List (Str × (PyVal → Str))

/-- Look up a custom format handler for an input variable
(`field.input_variable in self.format_handlers`, `template_v2.py:98`). -/
def findHandler : Handlers → Str → Option (PyVal → Str)
  | [], _ => Option.none
  | (k, f) :: t, k' => if k = k' then some f else findHandler t k'

/-- Message role. -/
inductive Role where
  | user : Role
  | assistant : Role
  deriving DecidableEq, Repr

/-- A `{"role": ..., "content": ...}` message dict. -/
structure Msg where
  role : Role
  content : Str
  deriving DecidableEq, Repr

/-- The external `dsp.settings` / `dspy.settings` capability provider:
`release` feature gates, and the optional attributes `query_only` and
`show_guidelines` (`none` models the attribute being absent). -/
structure Settings where
  release : Nat
  query_only : Option Bool
  show_guidelines : Option Bool
  deriving DecidableEq, Repr

/-- A compiled template object: `self.instructions`, `self.fields`,
`self.format_handlers`. -/
structure Template where
  instructions : Str
  fields : List Field
  handlers : Handlers

/-- `re.search("(.*)\n", t).group(1)` (`template_v2.py:30`): the first line,
or `none` (→ `AttributeError`) when `t` has no newline.  `.*` does not match
a newline, so the leftmost match captures everything before the first `'\n'`. -/
def firstLine? (t : Str) : Option Str :=
  if '\n' ∈ t then some (t.takeWhile (fun c => c ≠ '\n')) else Option.none

/-- Whether `'{' inner '}'` with a newline-free `inner` starts after this
point (the `{(.*)}` core of the field patterns; `.` does not match `'\n'`). -/
def hasCloseNoNewline : Str → Bool
  | [] => false
  | c :: t => if c = '}' then true else if c = '\n' then false else hasCloseNoNewline t

/-- Whether a `{(.*)}` group begins exactly here. -/
def braceGroupAt : Str → Bool
  | '{' :: t => hasCloseNoNewline t
  | _ => false

/-- Whether `re.search("(.*)(\s){(.*)}", s)` matches (`template_v2.py:42`);
the longer pattern of line 35 matches only if this one does, and on any
match `__init__` constructs a `Field` and dies, so only existence matters.
A match exists iff some whitespace character is immediately followed by a
brace group, since the leading `(.*)` may be empty and `re.search` tries
every start position. -/
def fieldPatternMatch : Str → Bool
  | [] => false
  | c :: t => (isPySpace c && braceGroupAt t) || fieldPatternMatch t

/-- `TemplateV2.__init__` (`template_v2.py:28-69`) as a compile function
from template text to `(instructions, fields)`.  The field loop appends
`Field(name=..., separator=..., input_variable=..., output_variable=...,
description=...)` — five keyword arguments for a six-component namedtuple —
so the first successful pattern match raises `TypeError` (missing `input`). -/
def compile (template : Str) : Except PyErr (Str × List Field) :=
  let t := pyStrip template
  match firstLine? t with
  | Option.none => .error .attributeError
  | some instructions =>
    let rest := pyStrip (t.drop instructions.length)
    if rest.isEmpty then .ok (instructions, [])
    else if fieldPatternMatch rest then .error .typeErrorMissingInput
    else .error .valueErrorParse

/-- The per-field "has a value" test of the open-field selection
(`template_v2.py:78-83`): `field.input_variable in example and
example[field.input_variable] is not None and example[field.input_variable] != ""`.
Note a `bool` value compares unequal to `""` in Python, so it counts. -/
def hasVal (ex : Vals) (f : Field) : Bool :=
  match pyGet ex f.input_variable with
  | Option.none => false
  | some .none => false
  | some (.bool _) => true
  | some (.str s) => !s.isEmpty

/-- The body of `for i in range(1, len(has_value))` (`template_v2.py:90-93`):
the first `i` in the given index list with `has_value[i-1]` true and no
value from `i` onward. -/
def findBreakList (hv : List Bool) : List Nat → Option Nat
  | [] => Option.none
  | i :: is =>
    if hv.getD (i - 1) false && !(hv.drop i).any id then some i
    else findBreakList hv is

/-- `range(1, len(has_value))` scan of `template_v2.py:90-93`. -/
def findBreak (hv : List Bool) : Option Nat :=
  findBreakList hv (List.range' 1 (hv.length - 1))

/-- Step 1 of `TemplateV2.query` (`template_v2.py:77-93`), the open-field
selection: computes the example content after the in-place mutation.
`self.fields[0]` on an empty field list raises `IndexError`. -/
def queryForce (fields : List Field) (ex : Vals) : Except PyErr Vals :=
  let hv := fields.map (hasVal ex)
  if !hv.any id then
    match fields with
    | [] => .error .indexError
    | f :: _ => .ok (pySet ex f.input_variable (.str []))
  else
    match findBreak hv with
    | some i =>
      match fields[i]? with
      | some f => .ok (pySet ex f.input_variable (.str []))
      | Option.none => .error .indexError
    | Option.none => .ok ex

/-- The per-field rendering loop of `TemplateV2.query`
(`template_v2.py:95-112`), returning the role-tagged content fragments in
field order.  A field is rendered iff its input variable is present and not
`None`; the formatter is the registered handler or the default whitespace
normalizer, which asserts the value is a string; a single-space separator is
promoted to a newline when the formatted value contains one. -/
def renderParts (handlers : Handlers) (ex : Vals) (is_demo : Bool) :
    List Field → Except PyErr (List (Role × Str))
  | [] => .ok []
  | f :: fs =>
    match pyGet ex f.input_variable with
    | Option.none => renderParts handlers ex is_demo fs
    | some .none => renderParts handlers ex is_demo fs
    | some v =>
      match (match findHandler handlers f.input_variable with
             | some h => .ok (h v)
             | Option.none =>
               match v with
               | .str s => .ok (normWs s)
               | _ => .error .assertionError : Except PyErr Str) with
      | .error e => .error e
      | .ok formatted =>
        let sep := if f.separator = [' '] && '\n' ∈ formatted then ['\n'] else f.separator
        let role := if f.input || !is_demo then Role.user else Role.assistant
        match renderParts handlers ex is_demo fs with
        | .error e => .error e
        | .ok rest => .ok ((role, f.name ++ sep ++ formatted) :: rest)

/-- Steps 2-3 of `TemplateV2.query` (`template_v2.py:95-121`): render the
fragments, then join the user-role and assistant-role contents with blank
lines and emit the nonempty messages in user-then-assistant order. -/
def renderMsgs (fields : List Field) (handlers : Handlers) (ex : Vals)
    (is_demo : Bool) : Except PyErr (List Msg) :=
  match renderParts handlers ex is_demo fields with
  | .error e => .error e
  | .ok parts =>
    let user := pyJoin "\n\n".toList ((parts.filter (fun p => p.1 = Role.user)).map (·.2))
    let asst := pyJoin "\n\n".toList ((parts.filter (fun p => p.1 = Role.assistant)).map (·.2))
    .ok ((if user.isEmpty then [] else [⟨Role.user, user⟩]) ++
         (if asst.isEmpty then [] else [⟨Role.assistant, asst⟩]))

/-- `TemplateV2.query` (`template_v2.py:71-121`).  The first component is
the content of the caller's example after the call: `query` writes the
forced open-field value directly into the example it was passed (no copy is
taken), so in non-demo mode the caller's object is mutated before rendering. -/
def query (fields : List Field) (handlers : Handlers) (ex : Vals)
    (is_demo : Bool) : Vals × Except PyErr (List Msg) :=
  if is_demo then (ex, renderMsgs fields handlers ex is_demo)
  else
    match queryForce fields ex with
    | .error e => (ex, .error e)
    | .ok ex' => (ex', renderMsgs fields handlers ex' is_demo)

/-- The `any(...)` generator of `_has_augmented_guidelines`
(`template_v2.py:139-141`), evaluated left to right with Python
short-circuiting: `("\n" in field.separator) or ("\n" in field.description)`;
when `description` is `None` the second operand raises `TypeError`. -/
def hasAugAny : List Field → Except PyErr Bool
  | [] => .ok false
  | f :: fs =>
    if '\n' ∈ f.separator then .ok true
    else
      match f.description with
      | Option.none => .error .typeErrorNoneIterable
      | some d => if '\n' ∈ d then .ok true else hasAugAny fs

/-- `TemplateV2._has_augmented_guidelines` (`template_v2.py:138-141`):
`len(self.fields) > 3 or any(("\n" in field.separator) or
("\n" in field.description) for field in self.fields)`. -/
def hasAugmentedGuidelines (fields : List Field) : Except PyErr Bool :=
  if 3 < fields.length then .ok true else hasAugAny fields

/-- `TemplateV2.guidelines` (`template_v2.py:123-136`): build a synthetic
example mapping each input variable to the field's description, set its
`augmented` flag, render it (in non-demo mode) and prefix the header. -/
def guidelines (tpl : Template) (settings : Settings)
    (show_guidelines : Bool) : Except PyErr Str :=
  if !show_guidelines || settings.show_guidelines = some false then .ok []
  else
    let ex := tpl.fields.foldl
      (fun e f => pySet e f.input_variable
        (match f.description with | some d => .str d | Option.none => .none)) []
    match hasAugmentedGuidelines tpl.fields with
    | .error e => .error e
    | .ok aug =>
      let ex := pySet ex "augmented".toList (.bool aug)
      match (query tpl.fields tpl.handlers ex false).2 with
      | .error e => .error e
      | .ok msgs =>
        .ok ("Follow the following format.\n\n".toList ++ pyJoin "\n\n".toList (msgs.map Msg.content))

/-- The trim / `rstrip("---")` / trim cleanup applied by `extract` under the
`dspy.settings.release >= 20231003` gate (`template_v2.py:176-200`); the
pre-gate behavior is a plain trim. -/
def gatedClean (settings : Settings) (s : Str) : Str :=
  if 20231003 ≤ settings.release then pyStrip (rstripDashes (pyStrip s)) else pyStrip s

/-- The starting-field scan of `extract` (`template_v2.py:161-165`): the
first index whose input variable is absent or `None` in the example
(equals `len(fields)` when every field is filled). -/
def startIdx (fields : List Field) (ex : Vals) : Nat :=
  fields.findIdx (fun f => !(pyMem ex f.input_variable && !(pyGet ex f.input_variable = some .none)))

/-- The main loop of `TemplateV2.extract` (`template_v2.py:170-202`) over the
remaining fields.  For a non-last field, the delimiter is a newline followed
by the next field's name: on a hit the text before it (cleaned) is assigned
and the scan advances past the delimiter (cleaned); on a miss the whole
remaining text is assigned and the loop breaks.  The last field always
receives the whole remaining text. -/
def extractLoop (settings : Settings) : List Field → Vals → Str → Vals
  | [], ex, _ => ex
  | [f], ex, raw =>
    if raw.isEmpty then ex
    else pySet ex f.output_variable (.str (gatedClean settings raw))
  | f :: g :: rest, ex, raw =>
    if raw.isEmpty then ex
    else
      match pyFind ('\n' :: g.name) raw with
      | some offset =>
        extractLoop settings (g :: rest)
          (pySet ex f.output_variable (.str (gatedClean settings (raw.take offset))))
          (gatedClean settings (raw.drop (offset + (g.name.length + 1))))
      | Option.none => pySet ex f.output_variable (.str (gatedClean settings raw))

/-- `TemplateV2.extract` (`template_v2.py:143-204`).  For a nonempty field
list the starting index is clamped into range (`idx = min(idx, n - 1)`,
line 169) and the loop of `extractLoop` runs; every index it touches stays
in range, so it cannot raise.  For an empty field list Python computes
`idx = min(0, -1) = -1`: with a nonempty trimmed completion the loop is
entered (`-1 < 0`), the guard `idx < len(self.fields) - 1` of line 171
fails (`-1 < -1`), the assert on line 195 passes (`-1 == -1`) and
`self.fields[-1]` raises `IndexError`; with an empty completion the loop
is skipped and the example is returned. -/
def extract (settings : Settings) (fields : List Field) (ex : Vals)
    (raw_pred : Str) : Except PyErr Vals :=
  if fields.isEmpty then
    if (pyStrip raw_pred).isEmpty then .ok ex else .error .indexError
  else
    .ok (extractLoop settings
      (fields.drop (min (startIdx fields ex) (fields.length - 1))) ex (pyStrip raw_pred))

/-- Modelled from the spec: the `dsp.Example` constructor (defined in
`dsp/primitives/demonstrate.py`, which is not part of this source tree)
wraps the caller-supplied mapping, so the rebinding
`example = dsp.Example(example)` on line 157 keeps writing through to the
caller's value set — §4.5 describes `extract` as
`extract(fields, value_set, raw_text) -> value_set'` with "same object,
updated in place, also returned", §5 says the Extractor "mutates the
caller-supplied value set in place", and §3 says "extraction writes output
values back onto the passed-in value set".  The caller's content after the
call is therefore the extraction result; when extraction raises
(`IndexError` on an empty field list) the failing access happens before
any write, leaving the caller's set unchanged. -/
def extractCallerAfter (settings : Settings) (fields : List Field)
    (ex : Vals) (raw_pred : Str) : Vals :=
  match extract settings fields ex raw_pred with
  | .ok r => r
  | .error _ => ex

/-- The concatenation of the rendered per-field texts of the round-trip
property (§8.1): the per-field content strings of `TemplateV2.query`'s
rendering loop, in field order, joined with blank lines as in
`template_v2.py:114-115`. -/
def renderConcatenatedText (fields : List Field) (handlers : Handlers)
    (ex : Vals) : Except PyErr Str :=
  match renderParts handlers ex true fields with
  | .error e => .error e
  | .ok parts => .ok (pyJoin "\n\n".toList (parts.map (·.2)))

/-- `del example[self.fields[-1].input_variable]` guarded by the membership
test (`template_v2.py:213-214`). -/
def delTarget (lastF : Field) (vals : Vals) : Vals :=
  if pyMem vals lastF.input_variable then pyDel vals lastF.input_variable else vals

/-- The raw-demo filter of `template_v2.py:216-225`: not marked augmented,
and carrying a non-`None` value for the last field's input variable. -/
def demoIsRaw (lastF : Field) (d : Vals) : Bool :=
  !pyTruthy (pyGetD d "augmented".toList (.bool false)) &&
    (pyMem d lastF.input_variable && !(pyGet d lastF.input_variable = some .none))

/-- The augmented-demo filter of `template_v2.py:227`. -/
def demoIsAug (d : Vals) : Bool := pyTruthy (pyGetD d "augmented".toList (.bool false))

/-- `self.query(demo, is_demo=True)` (`template_v2.py:217`, `227`). -/
def renderDemo (tpl : Template) (d : Vals) : Except PyErr (List Msg) :=
  (query tpl.fields tpl.handlers d true).2

/-- `rdemo_content = "\n\n".join([r["content"] for r in rdemo])`
(`template_v2.py:233`). -/
def demoContent (m : List Msg) : Str := pyJoin "\n\n".toList (m.map Msg.content)

/-- The promotion test of `template_v2.py:234`: the rendered demo content
contains the name of every field whose input variable is present in the
live example (after the target deletion). -/
def demoHasAllFields (tpl : Template) (vals : Vals) (m : List Msg) : Bool :=
  (tpl.fields.filter (fun f => pyMem vals f.input_variable)).all
    (fun f => isSubstr f.name (demoContent m))

/-- `TemplateV2.__call__` (`template_v2.py:206-288`): the prompt assembler. -/
def templateCall (tpl : Template) (settings : Settings) (ex : Vals)
    (demos : List Vals) (show_guidelines : Bool) : Except PyErr (List Msg) :=
  if (settings.query_only.getD false) then (query tpl.fields tpl.handlers ex false).2
  else
    match tpl.fields.getLast? with
    | Option.none => .error .indexError
    | some lastF =>
      let vals1 := delTarget lastF ex
      match (demos.filter (demoIsRaw lastF)).mapM (renderDemo tpl) with
      | .error e => .error e
      | .ok rdemos =>
        match (demos.filter demoIsAug).mapM (renderDemo tpl) with
        | .error e => .error e
        | .ok ademos =>
          let promoted := rdemos.filter (demoHasAllFields tpl vals1)
          let kept := rdemos.filter (fun r => !demoHasAllFields tpl vals1 r)
          let ademos2 := if 20230928 ≤ settings.release then promoted ++ ademos
                         else ademos ++ promoted
          let ademosFlat := ademos2.flatten
          let rdemosFlat := kept.flatten
          match hasAugmentedGuidelines tpl.fields with
          | .error e => .error e
          | .ok lq =>
            let vals2 := if lq then pySet vals1 "augmented".toList (.bool true) else vals1
            let qp := query tpl.fields tpl.handlers vals2 false
            match qp.2 with
            | .error e => .error e
            | .ok q =>
              match (if tpl.fields.length < q.length then
                       if !pyTruthy (pyGetD qp.1 "augmented".toList (.bool false)) then
                         match (query tpl.fields tpl.handlers
                                  (pySet qp.1 "augmented".toList (.bool true)) false).2 with
                         | .error e => .error e
                         | .ok q2 => .ok (true, q2)
                       else .ok (true, q)
                     else .ok (lq, q) : Except PyErr (Bool × List Msg)) with
              | .error e => .error e
              | .ok (long_query, qfinal) =>
                match guidelines tpl settings show_guidelines with
                | .error e => .error e
                | .ok gl =>
                  let hr := "\n\n---\n\n".toList
                  let user_content :=
                    if 1 ≤ rdemosFlat.length && (ademosFlat.length = 0 && !long_query) then
                      pyJoin hr (([tpl.instructions, gl].filter (fun p => !p.isEmpty)).map pyStrip)
                    else if rdemosFlat.length = 0 then
                      pyJoin hr (([tpl.instructions, gl].filter (fun p => !p.isEmpty)).map pyStrip)
                    else
                      pyJoin hr (([tpl.instructions,
                                   pyJoin "\n\n".toList (rdemosFlat.map Msg.content),
                                   gl].filter (fun p => !p.isEmpty)).map pyStrip)
                  .ok (⟨Role.user, user_content⟩ ::
                       ⟨Role.assistant, "OK, I'm ready.".toList⟩ :: (ademosFlat ++ qfinal))

/-- A non-degenerate extraction chunk: nonempty, newline-free, with no
whitespace at either end and no trailing dash (so trimming and dash
stripping leave it unchanged). -/
def goodVal (w : Str) : Bool :=
  !w.isEmpty && !(decide ('\n' ∈ w)) &&
    w.head?.all (fun c => !isPySpace c) &&
    w.getLast?.all (fun c => !isPySpace c && !(c = '-'))

/-- A non-degenerate field for the round-trip property: nonempty
newline-free name, and a separator made of non-newline whitespace. -/
def goodField (f : Field) : Bool :=
  !f.name.isEmpty && !(decide ('\n' ∈ f.name)) &&
    f.separator.all (fun c => isPySpace c && !(c = '\n'))

/-- The text the extractor scans while sitting on a field whose pending
chunk is `w`, with the later fields and their chunks in `ps`: the chunk,
then for each later field the blank-line joiner, its name, its separator,
and recursively its own tail. -/
def restText : Str → List (Field × Str) → Str
  | w, [] => w
  | w, (g, u) :: ps => w ++ '\n' :: '\n' :: (g.name ++ (g.separator ++ restText u ps))

/-- Sequential `example[k] = v` assignments. -/
def assignList (ex : Vals) (l : List (Str × Str)) : Vals :=
  l.foldl (fun e kv => pySet e kv.1 (.str kv.2)) ex

/-- Later fields paired with their whitespace-normalized values. -/
def zipNorm (fs : List Field) (vt : List Str) : List (Field × Str) :=
  (fs.zip vt).map (fun q => (q.1, normWs q.2))

/-- Concrete settings: both release gates open, no optional attributes. -/
def settings0 : Settings := ⟨20231003, Option.none, Option.none⟩

/-- Concrete `Question:` field. -/
def qF : Field :=
  ⟨"Question:".toList, " ".toList, "question".toList, "question".toList,
   some "the question".toList, false⟩

/-- Concrete `Answer:` field. -/
def aF : Field :=
  ⟨"Answer:".toList, " ".toList, "answer".toList, "answer".toList,
   some "the answer".toList, false⟩

/-- Concrete field with an `a -> a` style identity binding. -/
def aFld : Field :=
  ⟨"A:".toList, " ".toList, "a".toList, "a".toList, some "d".toList, false⟩

/-- Concrete field with a `b_in -> b_out` rename binding. -/
def bFld : Field :=
  ⟨"B:".toList, " ".toList, "b_in".toList, "b_out".toList, some "d".toList, false⟩

/-- Concrete question/answer template object. -/
def tplW : Template := ⟨"Ask.".toList, [qF, aF], []⟩

/-- Concrete live example holding only the question. -/
def exW : Vals := [("question".toList, .str "What is 2+2?".toList)]

/-- Concrete raw (non-augmented, fully labeled) demonstration. -/
def demoW : Vals :=
  [("question".toList, .str "1+1?".toList), ("answer".toList, .str "2".toList)]

/-- The raw completion of the spec's extraction example (§8.7). -/
def c9raw : Str := "4\nQuestion: unrelated\nother".toList

/-- Fully-filled value set for the round-trip example. -/
def rtEx : Vals :=
  [("question".toList, .str "What is 2+2?".toList), ("answer".toList, .str "4".toList)]

/-- The rendered messages of the concrete raw demo (demo mode: assistant). -/
def demoWR : List Msg :=
  [⟨Role.assistant, "Question: 1+1?\n\nAnswer: 2".toList⟩]

/-- The full assembled message list for the concrete prompt-assembly run
(guidelines off): instructions, acknowledgment, promoted demo, live query. -/
def msgsW : List Msg :=
  [⟨Role.user, "Ask.".toList⟩,
   ⟨Role.assistant, "OK, I'm ready.".toList⟩,
   ⟨Role.assistant, "Question: 1+1?\n\nAnswer: 2".toList⟩,
   ⟨Role.user, "Question: What is 2+2?\n\nAnswer: ".toList⟩]

/-! ### Helper lemmas: trimming -/

theorem head?_append_left {α : Type} {a b : List α} (h : a ≠ []) :
    (a ++ b).head? = a.head? := by
  cases a with
  | nil => exact absurd rfl h
  | cons x t => rfl

theorem getLast?_append_right {α : Type} {a b : List α} (h : b ≠ []) :
    (a ++ b).getLast? = b.getLast? := by
  rw [← List.head?_reverse, ← List.head?_reverse (l := b), List.reverse_append]
  exact head?_append_left (by simpa using h)

theorem getLast?_cons_of_ne_nil {α : Type} {a : α} {l : List α} (h : l ≠ []) :
    (a :: l).getLast? = l.getLast? := by
  have : a :: l = [a] ++ l := rfl
  rw [this, getLast?_append_right h]

theorem head?_dropWhile {p : Char → Bool} :
    ∀ {l : Str} {c : Char}, (l.dropWhile p).head? = some c → p c = false := by
  intro l
  induction l with
  | nil => intro c h; simp [List.dropWhile] at h
  | cons a t ih =>
    intro c h
    rw [List.dropWhile_cons] at h
    by_cases hp : p a = true
    · exact ih (by simpa [hp] using h)
    · simp [hp] at h
      subst h
      simpa using hp

theorem dropWhile_eq_self {p : Char → Bool} {l : Str}
    (h : ∀ c, l.head? = some c → p c = false) : l.dropWhile p = l := by
  cases l with
  | nil => rfl
  | cons a t => rw [List.dropWhile_cons, h a rfl]; simp

theorem lstrip_eq_self {l : Str}
    (h : ∀ c, l.head? = some c → isPySpace c = false) : lstrip l = l :=
  dropWhile_eq_self h

theorem rstripOn_getLast? {p : Char → Bool} {l : Str} {c : Char}
    (h : (rstripOn p l).getLast? = some c) : p c = false := by
  rw [rstripOn, ← List.head?_reverse, List.reverse_reverse] at h
  exact head?_dropWhile h

theorem rstripOn_eq_self {p : Char → Bool} {l : Str}
    (h : ∀ c, l.getLast? = some c → p c = false) : rstripOn p l = l := by
  rw [rstripOn, dropWhile_eq_self, List.reverse_reverse]
  intro c hc
  exact h c (by rwa [List.head?_reverse] at hc)

theorem exists_rstripOn_append (p : Char → Bool) (l : Str) :
    ∃ t, l = rstripOn p l ++ t := by
  refine ⟨(l.reverse.takeWhile p).reverse, ?_⟩
  rw [rstripOn, ← List.reverse_append, List.takeWhile_append_dropWhile, List.reverse_reverse]

theorem rstripOn_head? {p : Char → Bool} {l : Str} (h : rstripOn p l ≠ []) :
    (rstripOn p l).head? = l.head? := by
  obtain ⟨t, ht⟩ := exists_rstripOn_append p l
  conv_rhs => rw [ht]
  rw [head?_append_left h]

theorem rstripOn_idem (p : Char → Bool) (l : Str) :
    rstripOn p (rstripOn p l) = rstripOn p l :=
  rstripOn_eq_self (fun _ hc => rstripOn_getLast? hc)

theorem pyStrip_eq_self {s : Str}
    (h1 : ∀ c, s.head? = some c → isPySpace c = false)
    (h2 : ∀ c, s.getLast? = some c → isPySpace c = false) : pyStrip s = s := by
  rw [pyStrip, lstrip_eq_self h1, rstrip, rstripOn_eq_self h2]

theorem pyStrip_idem (s : Str) : pyStrip (pyStrip s) = pyStrip s := by
  by_cases hn : pyStrip s = []
  · rw [hn]; rfl
  · refine pyStrip_eq_self ?_ ?_
    · intro c hc
      rw [pyStrip, rstrip, rstripOn_head? (by rwa [pyStrip, rstrip] at hn)] at hc
      exact head?_dropWhile hc
    · intro c hc
      exact rstripOn_getLast? hc

/-! ### Helper lemmas: the example mapping -/

theorem pyGet_pySet_self (ex : Vals) (k : Str) (v : PyVal) :
    pyGet (pySet ex k v) k = some v := by
  induction ex with
  | nil => simp [pySet, pyGet]
  | cons p t ih =>
    by_cases h : p.1 = k
    · simp [pySet, pyGet, h]
    · simp [pySet, pyGet, h, ih]

theorem pyGet_pySet_ne {k k' : Str} (ex : Vals) (v : PyVal) (h : k' ≠ k) :
    pyGet (pySet ex k v) k' = pyGet ex k' := by
  induction ex with
  | nil => simp [pySet, pyGet, Ne.symm h]
  | cons p t ih =>
    obtain ⟨pk, pv⟩ := p
    by_cases hp : pk = k
    · subst hp
      simp [pySet, pyGet, Ne.symm h]
    · by_cases hp' : pk = k'
      · subst hp'
        simp [pySet, pyGet, hp, ih]
      · simp [pySet, pyGet, hp, hp', ih]

theorem pyMem_pySet_of_mem {ex : Vals} {k : Str} (k' : Str) (v : PyVal)
    (h : pyMem ex k = true) : pyMem (pySet ex k' v) k = true := by
  by_cases hk : k' = k
  · subst hk
    simp [pyMem, pyGet_pySet_self]
  · rwa [pyMem, pyGet_pySet_ne _ _ (Ne.symm hk)]

theorem pyGet_eq_none_of_not_mem {ex : Vals} {k : Str} (h : pyMem ex k = false) :
    pyGet ex k = Option.none := by
  cases hg : pyGet ex k with
  | none => rfl
  | some v => rw [pyMem, hg] at h; simp at h

/-- Every entry of `l` whose key occurs nowhere else among the written keys
is retrievable after `assignList`. -/
theorem pyGet_assignList_not_mem :
    ∀ (l : List (Str × Str)) (ex : Vals) (k : Str), k ∉ l.map Prod.fst →
      pyGet (assignList ex l) k = pyGet ex k := by
  intro l
  induction l with
  | nil => intro ex k _; rfl
  | cons p t ih =>
    intro ex k hk
    simp only [List.map_cons, List.mem_cons] at hk
    push_neg at hk
    rw [assignList, List.foldl_cons, ← assignList, ih _ _ hk.2,
      pyGet_pySet_ne _ _ hk.1]

theorem pyGet_assignList_mem :
    ∀ (l : List (Str × Str)) (ex : Vals) (k : Str) (w : Str),
      (l.map Prod.fst).Nodup → (k, w) ∈ l →
      pyGet (assignList ex l) k = some (.str w) := by
  intro l
  induction l with
  | nil => intro ex k w _ h; simp at h
  | cons p t ih =>
    intro ex k w hnd hm
    simp only [List.map_cons, List.nodup_cons] at hnd
    rcases List.mem_cons.mp hm with h | h
    · subst h
      rw [assignList, List.foldl_cons, ← assignList,
        pyGet_assignList_not_mem _ _ _ hnd.1, pyGet_pySet_self]
    · rw [assignList, List.foldl_cons, ← assignList, ih _ _ _ hnd.2 h]

/-! ### Helper lemmas: the gated cleanup -/

theorem rstripDashes_eq_self {s : Str}
    (h : ∀ c, s.getLast? = some c → c ≠ '-') : rstripDashes s = s := by
  refine rstripOn_eq_self ?_
  intro c hc
  simpa using h c hc

theorem gatedClean_of_clean {settings : Settings} {s : Str}
    (h1 : ∀ c, s.head? = some c → isPySpace c = false)
    (h2 : ∀ c, s.getLast? = some c → isPySpace c = false ∧ c ≠ '-') :
    gatedClean settings s = s := by
  rw [gatedClean]
  rw [pyStrip_eq_self h1 (fun c hc => (h2 c hc).1),
    rstripDashes_eq_self (fun c hc => (h2 c hc).2),
    pyStrip_eq_self h1 (fun c hc => (h2 c hc).1)]
  simp

/-! ### Helper lemmas: goodVal and goodField -/

theorem goodVal_spec {w : Str} (h : goodVal w = true) :
    w ≠ [] ∧ '\n' ∉ w ∧ (∀ c, w.head? = some c → isPySpace c = false) ∧
      (∀ c, w.getLast? = some c → isPySpace c = false ∧ c ≠ '-') := by
  rw [goodVal] at h
  simp only [Bool.and_eq_true] at h
  obtain ⟨⟨⟨h1, h2⟩, h3⟩, h4⟩ := h
  refine ⟨fun hnil => by simp [hnil] at h1, by simpa using h2, ?_, ?_⟩
  · intro c hc
    rw [hc] at h3
    simpa [Option.all] using h3
  · intro c hc
    rw [hc] at h4
    simpa [Option.all] using h4

theorem goodField_spec {f : Field} (h : goodField f = true) :
    f.name ≠ [] ∧ '\n' ∉ f.name ∧
      (∀ c, c ∈ f.separator → isPySpace c = true ∧ c ≠ '\n') := by
  rw [goodField] at h
  simp only [Bool.and_eq_true] at h
  obtain ⟨⟨h1, h2⟩, h3⟩ := h
  refine ⟨fun hnil => by simp [hnil] at h1, by simpa using h2, ?_⟩
  intro c hc
  rw [List.all_eq_true] at h3
  have := h3 c hc
  simpa using this

/-! ### Helper lemmas: substring search -/

theorem pyFind_delim :
    ∀ (w name rest : Str), '\n' ∉ w → name ≠ [] → '\n' ∉ name →
      pyFind ('\n' :: name) (w ++ '\n' :: '\n' :: (name ++ rest)) = some (w.length + 1) := by
  intro w
  induction w with
  | nil =>
    intro name rest _ hn hn2
    obtain ⟨c, cs, rfl⟩ := List.exists_cons_of_ne_nil hn
    have hc : (c == '\n') = false := by
      have hcc : c ≠ '\n' := fun h => hn2 (h ▸ List.mem_cons_self c cs)
      simpa using hcc
    have p1 : (('\n' :: c :: cs).isPrefixOf ('\n' :: '\n' :: (c :: cs ++ rest))) = false := by
      simp [List.isPrefixOf, hc]
    have p2 : (('\n' :: c :: cs).isPrefixOf ('\n' :: (c :: cs ++ rest))) = true :=
      List.isPrefixOf_iff_prefix.mpr ⟨rest, by simp⟩
    simp [pyFind, p1, p2]
    intro heq
    exact absurd heq (by simpa using hc)
  | cons a w ih =>
    intro name rest hw hn hn2
    have ha : ('\n' == a) = false := by
      have haa : a ≠ '\n' := fun h => hw (h ▸ List.mem_cons_self a w)
      simpa using Ne.symm haa
    have hw' : '\n' ∉ w := fun h => hw (List.mem_cons_of_mem a h)
    have p1 : (('\n' :: name).isPrefixOf (a :: (w ++ '\n' :: '\n' :: (name ++ rest)))) = false := by
      simp [List.isPrefixOf, ha]
    simp [pyFind, p1, ih name rest hw' hn hn2]

/-! ### C1: the field compiler -/

/-- C1: the claim says `compile` returns the instructions and one `Field`
per descriptor with the `input` flag defaulting to `false`; in the code the
`Field` namedtuple declares six components but the constructor call in
`__init__` passes only five, so compiling any well-formed template with at
least one field descriptor raises `TypeError` instead of returning. -/
theorem compile_raises_missing_input :
    compile "Answer the question.\nQuestion: {question}".toList =
      .error .typeErrorMissingInput := by decide

/-! ### C7: verbosity classification -/

/-- C7: the claim says the classification returns true iff the template has
more than 3 fields or a separator or description contains a newline; on a
template whose field has no description (`description = None`, as produced
by the compiler's second pattern) the code evaluates `"\n" in None` and
raises `TypeError` instead of returning `false`. -/
theorem hasAugmentedGuidelines_raises_on_missing_description :
    hasAugmentedGuidelines
        [⟨"Answer:".toList, " ".toList, "answer".toList, "answer".toList,
          Option.none, false⟩] =
      .error .typeErrorNoneIterable := by decide

/-! ### C9: the extraction example -/

/-- C9 counterexample: for fields `[Question, Answer]` with the question
already filled, extracting from `"4\nQuestion: unrelated\nother"` does not
yield `answer = "4"`: the result's answer slot holds the whole remainder,
which differs from `"4"` (the Answer field is last, so no delimiter search
happens). -/
theorem extract_example_not_just_four :
    extract settings0 [qF, aF] exW c9raw =
      .ok (pySet exW "answer".toList (.str c9raw)) ∧
    pyGet (pySet exW "answer".toList (.str c9raw)) "answer".toList ≠
      some (.str "4".toList) := by decide

/-- C9 amended: extraction starts at the Answer field and assigns it the
entire trimmed remainder `"4\nQuestion: unrelated\nother"`, touching no
other field (the result is exactly the value set plus that one entry). -/
theorem extract_example_whole_remainder :
    extract settings0 [qF, aF] exW c9raw =
      .ok (pySet exW "answer".toList (.str c9raw)) := by decide

/-! ### C6: trailing-artifact cleanup -/

/-- C6 counterexample: the cleanup is not idempotent on its own output:
cleaning `"a- -"` yields `"a-"` (the inner dash survives, the final trim
re-exposes a trailing dash), and cleaning that again yields `"a"`. -/
theorem gatedClean_not_idempotent :
    gatedClean settings0 (gatedClean settings0 "a- -".toList) ≠
      gatedClean settings0 "a- -".toList := by decide

/-- C6 amended: the cleanup maps `"answer---"`, `"answer --- "` and
`"answer"` to `"answer"`, and it is idempotent on every string whose
cleaned form does not end with a dash (cleaning can re-expose a trailing
dash, as the counterexample shows, but never anything else). -/
theorem gatedClean_examples_and_conditional_idem :
    gatedClean settings0 "answer---".toList = "answer".toList ∧
    gatedClean settings0 "answer --- ".toList = "answer".toList ∧
    gatedClean settings0 "answer".toList = "answer".toList ∧
    ∀ (settings : Settings) (s : Str), 20231003 ≤ settings.release →
      (gatedClean settings s).getLast? ≠ some '-' →
      gatedClean settings (gatedClean settings s) = gatedClean settings s := by
  refine ⟨by decide, by decide, by decide, ?_⟩
  intro settings s hrel hlast
  have key : ∀ x : Str, gatedClean settings x = pyStrip (rstripDashes (pyStrip x)) := by
    intro x
    unfold gatedClean
    rw [if_pos hrel]
  have h1 : pyStrip (gatedClean settings s) = gatedClean settings s := by
    rw [key s, pyStrip_idem]
  have h2 : rstripDashes (gatedClean settings s) = gatedClean settings s :=
    rstripDashes_eq_self (fun c hc he => hlast (he ▸ hc))
  rw [key (gatedClean settings s), h1, h2, h1]

/-- C6 witness: instantiating the conditional idempotence at `"answer"`. -/
theorem gatedClean_idem_witness :
    20231003 ≤ settings0.release ∧
    (gatedClean settings0 "answer".toList).getLast? ≠ some '-' ∧
    gatedClean settings0 (gatedClean settings0 "answer".toList) =
      gatedClean settings0 "answer".toList :=
  ⟨by decide, by decide,
    gatedClean_examples_and_conditional_idem.2.2.2 settings0 "answer".toList
      (by decide) (by decide)⟩

/-! ### C4: query's effect on the caller's value set -/

/-- C4 counterexample: the claim says `query` never mutates the passed-in
value set; in non-demo mode the open-field selection writes the forced
empty value directly into it (no working copy is taken): an empty value
set gains the entry `question -> ""`. -/
theorem query_mutates_caller :
    (query [qF, aF] [] [] false).1 ≠ [] := by decide

/-- C4 amended: in demo mode the caller's value set is unchanged; in
non-demo mode the call either leaves it unchanged or mutates it in exactly
one entry, setting some field's input variable to the empty string (the
forced open field). -/
theorem query_mutation_cases (fields : List Field) (handlers : Handlers) (ex : Vals) :
    (query fields handlers ex true).1 = ex ∧
    ((query fields handlers ex false).1 = ex ∨
      ∃ f, f ∈ fields ∧
        (query fields handlers ex false).1 = pySet ex f.input_variable (.str [])) := by
  constructor
  · rfl
  · have hq : ∀ r, queryForce fields ex = r →
        (query fields handlers ex false).1 =
          (match r with | .error _ => ex | .ok ex' => ex') := by
      intro r hr
      rw [query]
      simp only [Bool.false_eq_true, if_false, hr]
      cases r with
      | error e => rfl
      | ok ex' => rfl
    by_cases hany : (fields.map (hasVal ex)).any id = true
    · cases hfb : findBreak (fields.map (hasVal ex)) with
      | none =>
        left
        have := hq (.ok ex) (by unfold queryForce; simp [hany, hfb])
        simpa using this
      | some i =>
        cases hg : fields[i]? with
        | none =>
          left
          have := hq (.error .indexError) (by unfold queryForce; simp [hany, hfb, hg])
          simpa using this
        | some f =>
          right
          refine ⟨f, List.getElem?_mem hg, ?_⟩
          have := hq (.ok (pySet ex f.input_variable (.str [])))
            (by unfold queryForce; simp [hany, hfb, hg])
          simpa using this
    · have hany' : (fields.map (hasVal ex)).any id = false := by
        simpa using hany
      cases fields with
      | nil =>
        left
        have := hq (.error .indexError)
          (by unfold queryForce; simp [List.any_nil])
        simpa using this
      | cons f fs =>
        right
        refine ⟨f, List.mem_cons_self f fs, ?_⟩
        have := hq (.ok (pySet ex f.input_variable (.str [])))
          (by unfold queryForce; simp only [hany' ]; simp)
        simpa using this

/-! ### C3: extract's effect on the caller's value set -/

theorem pyMem_extractLoop (settings : Settings) :
    ∀ (fs : List Field) (ex : Vals) (raw : Str) (k : Str),
      pyMem ex k = true → pyMem (extractLoop settings fs ex raw) k = true := by
  intro fs
  induction fs with
  | nil => intro ex raw k h; simpa [extractLoop] using h
  | cons f rest ih =>
    cases rest with
    | nil =>
      intro ex raw k h
      rw [extractLoop]
      by_cases hr : raw.isEmpty
      · simpa [hr] using h
      · simp only [hr, Bool.false_eq_true, if_false]
        exact pyMem_pySet_of_mem _ _ h
    | cons g rest2 =>
      intro ex raw k h
      rw [extractLoop]
      by_cases hr : raw.isEmpty
      · simpa [hr] using h
      · simp only [hr, Bool.false_eq_true, if_false]
        cases hf : pyFind ('\n' :: g.name) raw with
        | none => exact pyMem_pySet_of_mem _ _ h
        | some offset => exact ih _ _ _ (pyMem_pySet_of_mem _ _ h)

/-- C3: on a successful extraction the caller-supplied value set is updated
in place and is the object that is returned: its content after the call is
exactly the returned content, which keeps every key the caller's set had
while gaining the extracted output values; when extraction raises, the
failing index access happens before any write, so the caller's set is
unchanged. -/
theorem extract_updates_caller_in_place (settings : Settings)
    (fields : List Field) (ex : Vals) (raw : Str) :
    (∀ r, extract settings fields ex raw = .ok r →
      extractCallerAfter settings fields ex raw = r ∧
      ∀ k, pyMem ex k = true → pyMem r k = true) ∧
    (∀ e, extract settings fields ex raw = .error e →
      extractCallerAfter settings fields ex raw = ex) := by
  constructor
  · intro r hr
    refine ⟨by unfold extractCallerAfter; rw [hr], ?_⟩
    intro k hk
    unfold extract at hr
    by_cases hf : fields.isEmpty = true
    · rw [if_pos hf] at hr
      by_cases hrw : (pyStrip raw).isEmpty = true
      · rw [if_pos hrw] at hr
        rw [← Except.ok.inj hr]
        exact hk
      · rw [if_neg hrw] at hr
        exact Except.noConfusion hr
    · rw [if_neg hf] at hr
      rw [← Except.ok.inj hr]
      exact pyMem_extractLoop settings _ ex _ k hk
  · intro e he
    unfold extractCallerAfter
    rw [he]

/-- C3 witness: the concrete extraction writes `answer -> "4"` onto the
caller's value set and returns it. -/
theorem extract_updates_caller_in_place_witness :
    extract settings0 [qF, aF] exW "4".toList =
      .ok (pySet exW "answer".toList (.str "4".toList)) ∧
    extractCallerAfter settings0 [qF, aF] exW "4".toList =
      pySet exW "answer".toList (.str "4".toList) ∧
    pyMem exW "question".toList = true ∧
    pyMem (pySet exW "answer".toList (.str "4".toList)) "question".toList = true :=
  ⟨by decide,
   ((extract_updates_caller_in_place settings0 [qF, aF] exW "4".toList).1
      (pySet exW "answer".toList (.str "4".toList)) (by decide)).1,
   by decide,
   ((extract_updates_caller_in_place settings0 [qF, aF] exW "4".toList).1
      (pySet exW "answer".toList (.str "4".toList)) (by decide)).2
     "question".toList (by decide)⟩

/-! ### C2 counterexample (the amended round trip is proved further below) -/

/-- C2 counterexample: the round trip fails on the very first field: its
extracted value is its whole rendered text `"Question: What is 2+2?"`
(name and separator included), not its original value, because the
extractor never strips the current field's own name. -/
theorem round_trip_first_field_keeps_name :
    renderConcatenatedText [qF, aF] [] rtEx =
      .ok "Question: What is 2+2?\n\nAnswer: 4".toList ∧
    extract settings0 [qF, aF] [] "Question: What is 2+2?\n\nAnswer: 4".toList =
      .ok [("question".toList, .str "Question: What is 2+2?".toList),
           ("answer".toList, .str "4".toList)] ∧
    ("Question: What is 2+2?".toList : Str) ≠ "What is 2+2?".toList := by
  refine ⟨by decide, by decide, by decide⟩

/-! ### C8 counterexample (the amended miss behavior is proved further below) -/

/-- C8 counterexample: the claim says every later field is absent from the
result after a delimiter miss; if the passed value set already contains a
later field's output variable (here `b_out`, the rename target of field
`B`), that key is still present in the result. -/
theorem extract_miss_later_field_not_absent :
    extract settings0 [aFld, bFld] [("b_out".toList, .str "old".toList)]
        "hello".toList =
      .ok [("b_out".toList, .str "old".toList), ("a".toList, .str "hello".toList)] ∧
    pyGet [("b_out".toList, .str "old".toList), ("a".toList, .str "hello".toList)]
        "b_out".toList ≠ Option.none := by decide

/-! ### C5: open-field selection -/

theorem query_fst_of_queryForce {fields : List Field} {handlers : Handlers}
    {ex : Vals} {v : Vals} (h : queryForce fields ex = .ok v) :
    (query fields handlers ex false).1 = v := by
  rw [query]
  simp [h]

/-- On a has-value list that is `k` trues followed by falses, the scan of
`range(1, n)` stops exactly at `k` (for `1 ≤ k < n`). -/
theorem findBreakList_pattern (hv : List Bool) (k : Nat) (hk1 : 1 ≤ k)
    (hkn : k < hv.length)
    (hget : ∀ i (hi : i < hv.length), hv[i] = decide (i < k)) :
    ∀ (b a : Nat), 1 ≤ a → a ≤ k → k < a + b →
      findBreakList hv (List.range' a b) = some k := by
  intro b
  induction b with
  | zero => intro a _ hak hkb; omega
  | succ b ih =>
    intro a ha1 hak hkb
    rw [List.range'_succ, findBreakList]
    by_cases hEq : a = k
    · subst hEq
      have c1 : hv.getD (a - 1) false = true := by
        rw [List.getD_eq_getElem hv false (by omega), hget (a - 1) (by omega)]
        simp only [decide_eq_true_eq]
        omega
      have c2 : (hv.drop a).any id = false := by
        rw [List.any_eq_false]
        intro x hx
        obtain ⟨j, hj⟩ := List.mem_iff_getElem?.mp hx
        rw [List.getElem?_drop] at hj
        have hjl : a + j < hv.length := by
          by_contra hc
          rw [List.getElem?_eq_none (by omega)] at hj
          exact Option.noConfusion hj
        rw [List.getElem?_eq_getElem hjl, hget (a + j) hjl] at hj
        have : x = decide (a + j < a) := by
          exact (Option.some.inj hj).symm
        rw [this]
        simp
      rw [c1, c2]
      simp
    · have hak' : a < k := lt_of_le_of_ne hak hEq
      have c2 : (hv.drop a).any id = true := by
        rw [List.any_eq_true]
        have hb : a + (k - 1 - a) < hv.length := by omega
        have h1 : (hv.drop a)[k - 1 - a]? = some true := by
          rw [List.getElem?_drop, List.getElem?_eq_getElem hb, hget _ hb]
          simp only [Option.some.injEq, decide_eq_true_eq]
          omega
        exact ⟨true, List.getElem?_mem h1, rfl⟩
      simp only [c2, Bool.not_true, Bool.and_false, Bool.false_eq_true, if_false]
      exact ih (a + 1) (by omega) (by omega) (by omega)

/-- C5: for a value set in which exactly the first `k` fields have present
non-empty values (with `k < n`, covering also `k = 0`), rendering in
non-demo mode forces exactly one field's value to the empty string: the
caller's value set afterwards is the old set with field `k`'s input
variable — the first field after the filled prefix, or the first field when
none is filled — set to `""`. -/
theorem query_open_field (fields : List Field) (handlers : Handlers) (ex : Vals)
    (k : Nat) (hk : k < fields.length)
    (hpre : ∀ i (hi : i < fields.length), hasVal ex fields[i] = decide (i < k)) :
    (query fields handlers ex false).1 =
      pySet ex (fields[k]).input_variable (.str []) := by
  have hlen : (fields.map (hasVal ex)).length = fields.length := List.length_map _ _
  have hvget : ∀ i (hi : i < (fields.map (hasVal ex)).length),
      (fields.map (hasVal ex))[i] = decide (i < k) := by
    intro i hi
    rw [List.getElem_map]
    exact hpre i (by rwa [hlen] at hi)
  rcases Nat.eq_zero_or_pos k with hk0 | hk1
  · subst hk0
    have hany : (fields.map (hasVal ex)).any id = false := by
      rw [List.any_eq_false]
      intro x hx
      obtain ⟨i, hi, hxe⟩ := List.mem_iff_getElem.mp hx
      rw [hvget i hi] at hxe
      simp [← hxe]
    cases fields with
    | nil => exact absurd hk (by simp)
    | cons f0 fs =>
      apply query_fst_of_queryForce
      unfold queryForce
      simp only [hany, Bool.not_false]
      simp
  · have hb : k - 1 < (fields.map (hasVal ex)).length := by omega
    have hany : (fields.map (hasVal ex)).any id = true := by
      rw [List.any_eq_true]
      have h1 : (fields.map (hasVal ex))[k - 1]? = some true := by
        rw [List.getElem?_eq_getElem hb, hvget (k - 1) hb]
        simp only [Option.some.injEq, decide_eq_true_eq]
        omega
      exact ⟨true, List.getElem?_mem h1, rfl⟩
    have hfb : findBreak (fields.map (hasVal ex)) = some k := by
      rw [findBreak]
      exact findBreakList_pattern _ k hk1 (by omega) hvget
        ((fields.map (hasVal ex)).length - 1) 1 (by omega) (by omega) (by omega)
    apply query_fst_of_queryForce
    unfold queryForce
    have hgk : fields[k]? = some fields[k] := List.getElem?_eq_getElem hk
    simp [hany, hfb, hgk]

/-- C5 witness: fields `[Question, Answer]` with only the question filled
(`k = 1`): the answer field is forced to the empty string. -/
theorem query_open_field_witness :
    (1 < ([qF, aF] : List Field).length ∧
      ∀ i (hi : i < ([qF, aF] : List Field).length),
        hasVal exW ([qF, aF] : List Field)[i] = decide (i < 1)) ∧
    (query [qF, aF] [] exW false).1 = pySet exW aF.input_variable (.str []) :=
  ⟨⟨by decide, by decide⟩,
    query_open_field [qF, aF] [] exW 1 (by decide) (by decide)⟩

/-! ### C8: extraction delimiter miss -/

theorem isEmpty_false_of_ne_nil {α : Type} {l : List α} (h : l ≠ []) :
    l.isEmpty = false := by
  cases l with
  | nil => exact absurd rfl h
  | cons a t => rfl

/-- C8 amended: extraction raises `IndexError` on an empty field sequence
with a nonempty trimmed completion, so "never raises" holds exactly for
nonempty field sequences, where extraction always returns a value set; and
when the delimiter for the next field is not found, the entire remaining
trimmed and dash-stripped text is assigned to the current field's output
variable and nothing else changes: every later field is left unwritten, so
its output variable is absent from the result whenever it was not already
present in the passed value set and is distinct from the current field's
output variable (and it is never defaulted to `""`). -/
theorem extract_boundary_miss (settings : Settings) (fields : List Field)
    (f g : Field) (rest : List Field) (ex : Vals) (raw : Str)
    (hdrop : fields.drop (min (startIdx fields ex) (fields.length - 1)) = f :: g :: rest)
    (hraw : pyStrip raw ≠ [])
    (hfind : pyFind ('\n' :: g.name) (pyStrip raw) = Option.none) :
    (∀ (ex' : Vals) (raw' : Str), pyStrip raw' ≠ [] →
      extract settings [] ex' raw' = .error .indexError) ∧
    (∀ (fields' : List Field) (ex' : Vals) (raw' : Str), fields' ≠ [] →
      ∃ r, extract settings fields' ex' raw' = .ok r) ∧
    extract settings fields ex raw =
      .ok (pySet ex f.output_variable (.str (gatedClean settings (pyStrip raw)))) ∧
    ∀ h, h ∈ g :: rest → h.output_variable ≠ f.output_variable →
      pyMem ex h.output_variable = false →
      pyGet (pySet ex f.output_variable (.str (gatedClean settings (pyStrip raw))))
        h.output_variable = Option.none := by
  have hfne : fields ≠ [] := by
    intro h0
    rw [h0] at hdrop
    simp at hdrop
  refine ⟨?_, ?_, ?_, ?_⟩
  · intro ex' raw' hne
    unfold extract
    simp [isEmpty_false_of_ne_nil hne]
  · intro fields' ex' raw' hne
    unfold extract
    rw [if_neg (by simp [isEmpty_false_of_ne_nil hne])]
    exact ⟨_, rfl⟩
  · unfold extract
    rw [if_neg (by simp [isEmpty_false_of_ne_nil hfne]), hdrop, extractLoop]
    simp only [isEmpty_false_of_ne_nil hraw, Bool.false_eq_true, if_false, hfind]
  · intro h _ hne hnm
    rw [pyGet_pySet_ne _ _ hne, pyGet_eq_none_of_not_mem hnm]

/-- C8 witness: fields `[Question, Answer]`, empty value set, completion
`"hello"` with no `"\nAnswer:"` delimiter: the question field receives the
whole text and the answer field stays absent; with no fields at all the
same completion raises `IndexError`. -/
theorem extract_boundary_miss_witness :
    pyFind ('\n' :: aF.name) (pyStrip "hello".toList) = Option.none ∧
    extract settings0 [] [] "hello".toList = .error .indexError ∧
    extract settings0 [qF, aF] [] "hello".toList =
      .ok (pySet [] qF.output_variable
        (.str (gatedClean settings0 (pyStrip "hello".toList)))) ∧
    pyGet (pySet [] qF.output_variable
        (.str (gatedClean settings0 (pyStrip "hello".toList))))
      aF.output_variable = Option.none :=
  ⟨by decide,
   (extract_boundary_miss settings0 [qF, aF] qF aF [] [] "hello".toList
      (by decide) (by decide) (by decide)).1 [] "hello".toList (by decide),
   (extract_boundary_miss settings0 [qF, aF] qF aF [] [] "hello".toList
      (by decide) (by decide) (by decide)).2.2.1,
   (extract_boundary_miss settings0 [qF, aF] qF aF [] [] "hello".toList
      (by decide) (by decide) (by decide)).2.2.2 aF (by decide) (by decide) (by decide)⟩

/-! ### C2 machinery: good chunks along the extraction text -/

theorem goodVal_intro {w : Str} (h1 : w ≠ []) (h2 : '\n' ∉ w)
    (h3 : ∀ c, w.head? = some c → isPySpace c = false)
    (h4 : ∀ c, w.getLast? = some c → isPySpace c = false ∧ c ≠ '-') :
    goodVal w = true := by
  rw [goodVal]
  simp only [Bool.and_eq_true]
  refine ⟨⟨⟨?_, ?_⟩, ?_⟩, ?_⟩
  · rw [isEmpty_false_of_ne_nil h1]; rfl
  · simp [h2]
  · cases hh : w.head? with
    | none => rfl
    | some c => simp [Option.all, h3 c hh]
  · cases hh : w.getLast? with
    | none => rfl
    | some c => simp [Option.all, (h4 c hh).1, (h4 c hh).2]

theorem restText_ne_nil {w : Str} (ps : List (Field × Str)) (h : w ≠ []) :
    restText w ps ≠ [] := by
  cases ps with
  | nil => exact h
  | cons p t =>
    obtain ⟨g, u⟩ := p
    rw [restText]
    simp [h]

theorem restText_head? {w : Str} (ps : List (Field × Str)) (h : w ≠ []) :
    (restText w ps).head? = w.head? := by
  cases ps with
  | nil => rfl
  | cons p t =>
    obtain ⟨g, u⟩ := p
    rw [restText, head?_append_left h]

theorem restText_getLast? :
    ∀ (ps : List (Field × Str)) (w : Str), goodVal w = true →
      (∀ p ∈ ps, goodVal p.2 = true) →
      ∀ c, (restText w ps).getLast? = some c → isPySpace c = false ∧ c ≠ '-' := by
  intro ps
  induction ps with
  | nil =>
    intro w hw _ c hc
    exact (goodVal_spec hw).2.2.2 c hc
  | cons p t ih =>
    obtain ⟨g, u⟩ := p
    intro w hw hp c hc
    have hu : goodVal u = true := hp (g, u) (List.mem_cons_self _ _)
    have hR : restText u t ≠ [] := restText_ne_nil t (goodVal_spec hu).1
    rw [restText, getLast?_append_right (by simp),
      getLast?_cons_of_ne_nil (by simp [hR]),
      getLast?_cons_of_ne_nil (by simp [hR]),
      getLast?_append_right (by simp [hR]),
      getLast?_append_right hR] at hc
    exact ih u hu (fun q hq => hp q (List.mem_cons_of_mem _ hq)) c hc

theorem restText_eq_cons_field (N S w : Str) (ps : List (Field × Str)) :
    N ++ (S ++ restText w ps) = restText (N ++ (S ++ w)) ps := by
  cases ps with
  | nil => rfl
  | cons p t =>
    obtain ⟨g, u⟩ := p
    rw [restText, restText]
    simp [List.append_assoc]

theorem goodVal_field_chunk {f : Field} {w : Str} (hgf : goodField f = true)
    (hh : ∀ c, f.name.head? = some c → isPySpace c = false)
    (hw : goodVal w = true) :
    goodVal (f.name ++ (f.separator ++ w)) = true := by
  obtain ⟨hn1, hn2, hsep⟩ := goodField_spec hgf
  obtain ⟨hw1, hw2, hw3, hw4⟩ := goodVal_spec hw
  refine goodVal_intro ?_ ?_ ?_ ?_
  · simp [hn1]
  · intro hmem
    rcases List.mem_append.mp hmem with h | h
    · exact hn2 h
    · rcases List.mem_append.mp h with h' | h'
      · exact (hsep '\n' h').2 rfl
      · exact hw2 h'
  · intro c hc
    rw [head?_append_left hn1] at hc
    exact hh c hc
  · intro c hc
    rw [getLast?_append_right (by simp [hw1]), getLast?_append_right hw1] at hc
    exact hw4 c hc

/-! ### C2 machinery: trimming along the extraction text -/

theorem lstrip_append_ws {sep rest : Str}
    (hsep : ∀ c ∈ sep, isPySpace c = true) : lstrip (sep ++ rest) = lstrip rest := by
  induction sep with
  | nil => rfl
  | cons c t ih =>
    rw [List.cons_append, lstrip, List.dropWhile_cons,
      hsep c (List.mem_cons_self _ _)]
    simp only [if_true]
    exact ih (fun c hc => hsep c (List.mem_cons_of_mem _ hc))

theorem pyStrip_append_ws {sep rest : Str}
    (hsep : ∀ c ∈ sep, isPySpace c = true) : pyStrip (sep ++ rest) = pyStrip rest := by
  rw [pyStrip, pyStrip, lstrip_append_ws hsep]

theorem gatedClean_eq (settings : Settings) (s : Str)
    (hrel : 20231003 ≤ settings.release) :
    gatedClean settings s = pyStrip (rstripDashes (pyStrip s)) := by
  unfold gatedClean
  rw [if_pos hrel]

theorem gatedClean_of_good {settings : Settings} {w : Str} (hw : goodVal w = true) :
    gatedClean settings w = w := by
  obtain ⟨_, _, h3, h4⟩ := goodVal_spec hw
  exact gatedClean_of_clean h3 h4

theorem pyStrip_append_newline {w : Str} (hw : goodVal w = true) :
    pyStrip (w ++ ['\n']) = w := by
  obtain ⟨h1, _, h3, h4⟩ := goodVal_spec hw
  rw [pyStrip,
    lstrip_eq_self (by intro c hc; rw [head?_append_left h1] at hc; exact h3 c hc),
    rstrip, rstripOn, List.reverse_append]
  simp only [List.reverse_cons, List.reverse_nil, List.nil_append, List.singleton_append]
  rw [List.dropWhile_cons]
  have hnl : isPySpace '\n' = true := rfl
  simp only [hnl, if_true]
  rw [dropWhile_eq_self, List.reverse_reverse]
  intro c hc
  rw [List.head?_reverse] at hc
  exact (h4 c hc).1

theorem gatedClean_append_newline {settings : Settings} {w : Str}
    (hrel : 20231003 ≤ settings.release) (hw : goodVal w = true) :
    gatedClean settings (w ++ ['\n']) = w := by
  obtain ⟨_, _, h3, h4⟩ := goodVal_spec hw
  rw [gatedClean_eq settings _ hrel, pyStrip_append_newline hw,
    rstripDashes_eq_self (fun c hc => (h4 c hc).2),
    pyStrip_eq_self h3 (fun c hc => (h4 c hc).1)]

theorem gatedClean_sep_restText {settings : Settings} {g : Field} {u : Str}
    {ps : List (Field × Str)} (hrel : 20231003 ≤ settings.release)
    (hgf : goodField g = true) (hu : goodVal u = true)
    (hps : ∀ p ∈ ps, goodVal p.2 = true) :
    gatedClean settings (g.separator ++ restText u ps) = restText u ps := by
  obtain ⟨_, _, hsep⟩ := goodField_spec hgf
  obtain ⟨hu1, _, hu3, _⟩ := goodVal_spec hu
  have hRhead : ∀ c, (restText u ps).head? = some c → isPySpace c = false := by
    intro c hc
    rw [restText_head? ps hu1] at hc
    exact hu3 c hc
  have hRlast : ∀ c, (restText u ps).getLast? = some c →
      isPySpace c = false ∧ c ≠ '-' := restText_getLast? ps u hu hps
  have hRs : pyStrip (restText u ps) = restText u ps :=
    pyStrip_eq_self hRhead (fun c hc => (hRlast c hc).1)
  rw [gatedClean_eq settings _ hrel,
    pyStrip_append_ws (fun c hc => (hsep c hc).1), hRs,
    rstripDashes_eq_self (fun c hc => (hRlast c hc).2), hRs]

/-- The extraction loop walks the rendered text field by field: sitting on a
field whose pending chunk is `w`, with the later fields and chunks in `ps`,
it assigns each field its chunk (the pending one first). -/
theorem extractLoop_restText (settings : Settings)
    (hrel : 20231003 ≤ settings.release) :
    ∀ (ps : List (Field × Str)) (f : Field) (w : Str) (ex : Vals),
      goodVal w = true →
      (∀ p ∈ ps, goodField p.1 = true ∧ goodVal p.2 = true) →
      extractLoop settings (f :: ps.map Prod.fst) ex (restText w ps) =
        assignList ex
          ((f.output_variable, w) :: ps.map (fun p => (p.1.output_variable, p.2))) := by
  intro ps
  induction ps with
  | nil =>
    intro f w ex hw _
    obtain ⟨h1, _, _, _⟩ := goodVal_spec hw
    rw [List.map_nil, restText, extractLoop]
    simp only [isEmpty_false_of_ne_nil h1, Bool.false_eq_true, if_false]
    rw [gatedClean_of_good hw]
    rfl
  | cons p ps ih =>
    obtain ⟨g, u⟩ := p
    intro f w ex hw hp
    have hgf : goodField g = true := (hp (g, u) (List.mem_cons_self _ _)).1
    have hgu : goodVal u = true := (hp (g, u) (List.mem_cons_self _ _)).2
    have hps : ∀ q ∈ ps, goodField q.1 = true ∧ goodVal q.2 = true :=
      fun q hq => hp q (List.mem_cons_of_mem _ hq)
    obtain ⟨hw1, hw2, _, _⟩ := goodVal_spec hw
    obtain ⟨hn1, hn2, _⟩ := goodField_spec hgf
    rw [List.map_cons, restText, extractLoop]
    have hraw : (w ++ '\n' :: '\n' :: (g.name ++ (g.separator ++ restText u ps))) ≠ [] := by
      simp [hw1]
    simp only [isEmpty_false_of_ne_nil hraw, Bool.false_eq_true, if_false]
    rw [pyFind_delim w g.name (g.separator ++ restText u ps) hw2 hn1 hn2]
    have htake : (w ++ '\n' :: '\n' :: (g.name ++ (g.separator ++ restText u ps))).take
        (w.length + 1) = w ++ ['\n'] := by
      rw [List.take_append 1]
      rfl
    have hdrop : (w ++ '\n' :: '\n' :: (g.name ++ (g.separator ++ restText u ps))).drop
        (w.length + 1 + (g.name.length + 1)) = g.separator ++ restText u ps := by
      have harith : w.length + 1 + (g.name.length + 1) =
          w.length + (g.name.length + 1 + 1) := by omega
      rw [harith, List.drop_append (g.name.length + 1 + 1)]
      show (g.name ++ (g.separator ++ restText u ps)).drop (g.name.length + 0) = _
      rw [Nat.add_zero, List.drop_left]
    show extractLoop settings (g :: List.map Prod.fst ps)
        (pySet ex f.output_variable (PyVal.str (gatedClean settings
          (List.take (w.length + 1)
            (w ++ '\n' :: '\n' :: (g.name ++ (g.separator ++ restText u ps)))))))
        (gatedClean settings
          (List.drop (w.length + 1 + (g.name.length + 1))
            (w ++ '\n' :: '\n' :: (g.name ++ (g.separator ++ restText u ps))))) = _
    rw [htake, hdrop, gatedClean_append_newline hrel hw,
      gatedClean_sep_restText hrel hgf hgu (fun q hq => (hps q hq).2),
      ih g u (pySet ex f.output_variable (.str w)) hgu hps]
    rfl

/-! ### C2 machinery: the rendered text -/

theorem renderParts_default (handlers : Handlers) (ex : Vals) (isd : Bool) :
    ∀ (fields : List Field) (vs : List Str),
      List.Forall₂ (fun f v => pyGet ex f.input_variable = some (.str v)) fields vs →
      (∀ f ∈ fields, findHandler handlers f.input_variable = Option.none) →
      (∀ v ∈ vs, '\n' ∉ normWs v) →
      ∃ parts, renderParts handlers ex isd fields = .ok parts ∧
        parts.map Prod.snd =
          List.zipWith (fun (f : Field) (v : Str) => f.name ++ (f.separator ++ normWs v))
            fields vs := by
  intro fields vs hfa
  induction hfa with
  | nil => intro _ _; exact ⟨[], rfl, rfl⟩
  | cons h1 h2 ih =>
    rename_i f v fs vt
    intro hnoh hnw
    obtain ⟨parts, hok, hmap⟩ := ih (fun x hx => hnoh x (List.mem_cons_of_mem _ hx))
      (fun x hx => hnw x (List.mem_cons_of_mem _ hx))
    have hnh : findHandler handlers f.input_variable = Option.none :=
      hnoh f (List.mem_cons_self _ _)
    have hcond : (decide (f.separator = [' ']) && decide ('\n' ∈ normWs v)) = false := by
      rw [decide_eq_false (hnw v (List.mem_cons_self _ _))]
      simp
    refine ⟨(if f.input || !isd then Role.user else Role.assistant,
             f.name ++ (f.separator ++ normWs v)) :: parts, ?_, ?_⟩
    · rw [renderParts, h1, hnh]
      show (match (Except.ok (normWs v) : Except PyErr Str) with
            | Except.error e => Except.error e
            | Except.ok formatted =>
              let sep := if f.separator = [' '] && '\n' ∈ formatted then ['\n']
                         else f.separator
              let role := if f.input || !isd then Role.user else Role.assistant
              match renderParts handlers ex isd fs with
              | Except.error e => Except.error e
              | Except.ok rest =>
                Except.ok ((role, f.name ++ sep ++ formatted) :: rest)) = _
      simp only [hcond, Bool.false_eq_true, if_false, hok]
      rw [List.append_assoc]
    · simp [hmap]

theorem renderConcatenatedText_default (handlers : Handlers) (ex : Vals)
    (fields : List Field) (vs : List Str)
    (hfa : List.Forall₂ (fun f v => pyGet ex f.input_variable = some (.str v)) fields vs)
    (hnoh : ∀ f ∈ fields, findHandler handlers f.input_variable = Option.none)
    (hnw : ∀ v ∈ vs, '\n' ∉ normWs v) :
    renderConcatenatedText fields handlers ex =
      .ok (pyJoin "\n\n".toList
        (List.zipWith (fun (f : Field) (v : Str) => f.name ++ (f.separator ++ normWs v))
          fields vs)) := by
  obtain ⟨parts, hok, hmap⟩ := renderParts_default handlers ex true fields vs hfa hnoh hnw
  unfold renderConcatenatedText
  rw [hok]
  show Except.ok (pyJoin "\n\n".toList (parts.map Prod.snd)) = _
  rw [hmap]

theorem zipWith_content_map :
    ∀ (fs : List Field) (vt : List Str),
      List.zipWith (fun (f : Field) (v : Str) => f.name ++ (f.separator ++ normWs v)) fs vt =
        (zipNorm fs vt).map (fun p => p.1.name ++ (p.1.separator ++ p.2)) := by
  intro fs
  induction fs with
  | nil => intro vt; rfl
  | cons f fs ih =>
    intro vt
    cases vt with
    | nil => rfl
    | cons v vt => simp [zipNorm, ih vt]

theorem pyJoin_restText :
    ∀ (ps : List (Field × Str)) (x : Str),
      pyJoin "\n\n".toList (x :: ps.map (fun p => p.1.name ++ (p.1.separator ++ p.2))) =
        restText x ps := by
  intro ps
  induction ps with
  | nil => intro x; rfl
  | cons p ps ih =>
    obtain ⟨g, u⟩ := p
    intro x
    rw [List.map_cons, pyJoin, ih (g.name ++ (g.separator ++ u)),
      ← restText_eq_cons_field g.name g.separator u ps, restText]
    have hnn : ("\n\n".toList : Str) = ['\n', '\n'] := rfl
    rw [hnn]
    simp [List.append_assoc]

theorem zipNorm_map_fst {fs : List Field} {vt : List Str}
    (hlen : fs.length = vt.length) : (zipNorm fs vt).map Prod.fst = fs := by
  rw [zipNorm, List.map_map]
  exact List.map_fst_zip fs vt (le_of_eq hlen)

/-! ### C2: the amended round trip -/

/-- C2 amended: for a field sequence whose names are nonempty, newline-free
and (for the first field) not starting with whitespace, whose separators
are non-newline whitespace, whose output variables are pairwise distinct,
whose fields have no custom formatter, and a fully-filled value set whose
whitespace-normalized values are non-degenerate (`goodVal`), extracting
from the concatenated rendered text starting with an empty value set
recovers, for every field after the first, exactly the whitespace-normalized
original value — while the first field receives its entire rendered text
(name and separator included) rather than its value. -/
theorem extract_round_trip (settings : Settings) (handlers : Handlers)
    (f0 : Field) (fs : List Field) (ex : Vals) (v0 : Str) (vt : List Str) (T : Str)
    (hrel : 20231003 ≤ settings.release)
    (hvals : List.Forall₂ (fun f v => pyGet ex f.input_variable = some (.str v))
      (f0 :: fs) (v0 :: vt))
    (hnoh : ∀ f ∈ f0 :: fs, findHandler handlers f.input_variable = Option.none)
    (hgf : ∀ f ∈ f0 :: fs, goodField f = true)
    (hh0 : ∀ c, f0.name.head? = some c → isPySpace c = false)
    (hgv : ∀ v ∈ v0 :: vt, goodVal (normWs v) = true)
    (hnd : ((f0 :: fs).map Field.output_variable).Nodup)
    (hT : renderConcatenatedText (f0 :: fs) handlers ex = .ok T) :
    ∃ R, extract settings (f0 :: fs) [] T = .ok R ∧
      pyGet R f0.output_variable =
        some (.str (f0.name ++ (f0.separator ++ normWs v0))) ∧
      ∀ (f : Field) (v : Str), (f, v) ∈ fs.zip vt →
        pyGet R f.output_variable = some (.str (normWs v)) := by
  have hlen : fs.length = vt.length := by
    have := List.Forall₂.length_eq hvals
    simpa using this
  have hmapfst : (zipNorm fs vt).map Prod.fst = fs := zipNorm_map_fst hlen
  have hA : goodVal (f0.name ++ (f0.separator ++ normWs v0)) = true :=
    goodVal_field_chunk (hgf f0 (List.mem_cons_self _ _)) hh0
      (hgv v0 (List.mem_cons_self _ _))
  have hpsg : ∀ p ∈ zipNorm fs vt, goodField p.1 = true ∧ goodVal p.2 = true := by
    intro p hp
    rw [zipNorm] at hp
    obtain ⟨⟨qf, qv⟩, hq, rfl⟩ := List.mem_map.mp hp
    exact ⟨hgf qf (List.mem_cons_of_mem _ (List.of_mem_zip hq).1),
      hgv qv (List.mem_cons_of_mem _ (List.of_mem_zip hq).2)⟩
  have hnw : ∀ v ∈ v0 :: vt, '\n' ∉ normWs v :=
    fun v hv => (goodVal_spec (hgv v hv)).2.1
  have hT' : T = restText (f0.name ++ (f0.separator ++ normWs v0)) (zipNorm fs vt) := by
    have h1 := renderConcatenatedText_default handlers ex (f0 :: fs) (v0 :: vt)
      hvals hnoh hnw
    rw [hT] at h1
    have h2 := Except.ok.inj h1
    rw [h2, List.zipWith_cons_cons, zipWith_content_map fs vt, pyJoin_restText]
  have hstart : startIdx (f0 :: fs) ([] : Vals) = 0 := by
    unfold startIdx
    rw [List.findIdx_cons]
    simp [pyMem, pyGet]
  have hstrip : pyStrip T = T := by
    rw [hT']
    refine pyStrip_eq_self ?_ ?_
    · intro c hc
      rw [restText_head? _ (goodVal_spec hA).1,
        head?_append_left (goodField_spec (hgf f0 (List.mem_cons_self _ _))).1] at hc
      exact hh0 c hc
    · intro c hc
      exact (restText_getLast? _ _ hA (fun q hq => (hpsg q hq).2) c hc).1
  have hext : extract settings (f0 :: fs) [] T =
      .ok (assignList []
        ((f0.output_variable, f0.name ++ (f0.separator ++ normWs v0)) ::
          (zipNorm fs vt).map (fun p => (p.1.output_variable, p.2)))) := by
    have hl := extractLoop_restText settings hrel (zipNorm fs vt) f0
      (f0.name ++ (f0.separator ++ normWs v0)) [] hA hpsg
    rw [hmapfst] at hl
    unfold extract
    rw [if_neg (by simp), hstart, Nat.zero_min, List.drop_zero, hstrip, hT', hl]
  have hkeys : (zipNorm fs vt).map (fun p : Field × Str => p.1.output_variable) =
      fs.map Field.output_variable := by
    conv_rhs => rw [← hmapfst, List.map_map]
    rfl
  have hknd : ((((f0.output_variable, f0.name ++ (f0.separator ++ normWs v0)) ::
      (zipNorm fs vt).map (fun p => (p.1.output_variable, p.2)))).map Prod.fst).Nodup := by
    rw [List.map_cons, List.map_map]
    have : ((zipNorm fs vt).map
        (Prod.fst ∘ fun p : Field × Str => (p.1.output_variable, p.2))) =
        fs.map Field.output_variable := hkeys
    rw [this]
    simpa using hnd
  refine ⟨_, hext, ?_, ?_⟩
  · exact pyGet_assignList_mem _ [] _ _ hknd (List.mem_cons_self _ _)
  · intro f v hfv2
    apply pyGet_assignList_mem _ [] _ _ hknd
    apply List.mem_cons_of_mem
    have hmem : (f, normWs v) ∈ zipNorm fs vt := by
      rw [zipNorm]
      exact List.mem_map.mpr ⟨(f, v), hfv2, rfl⟩
    exact List.mem_map.mpr ⟨(f, normWs v), hmem, rfl⟩

/-- C2 witness: the question/answer template with values
`"What is 2+2?"` and `"4"`. -/
theorem extract_round_trip_witness :
    renderConcatenatedText [qF, aF] [] rtEx =
      .ok "Question: What is 2+2?\n\nAnswer: 4".toList ∧
    ∃ R, extract settings0 [qF, aF] []
          "Question: What is 2+2?\n\nAnswer: 4".toList = .ok R ∧
      pyGet R "question".toList = some (.str "Question: What is 2+2?".toList) ∧
      pyGet R "answer".toList = some (.str "4".toList) := by
  have h := extract_round_trip settings0 [] qF [aF] rtEx "What is 2+2?".toList
    ["4".toList] "Question: What is 2+2?\n\nAnswer: 4".toList (by decide)
    (List.Forall₂.cons (by decide) (List.Forall₂.cons (by decide) List.Forall₂.nil))
    (fun f _ => rfl) (by decide)
    (by
      intro c hc
      rw [show qF.name.head? = some 'Q' from rfl] at hc
      injection hc with h2
      subst h2
      decide)
    (by decide) (by decide) (by decide)
  obtain ⟨R, h1, h2, h3⟩ := h
  exact ⟨by decide, R, h1, h2, h3 aF "4".toList (by decide)⟩

/-! ### C10: demo promotion in the assembled prompt -/

/-- C10: whenever the prompt assembler succeeds (under the open release
gate), the final message sequence is the user turn, the fixed
acknowledgment, then the messages of exactly those raw-rendered demos whose
rendered content contains the name of every field whose input variable is
present in the live value set (the promoted demos), then the messages of
the pre-existing augmented demos, then the live query: every promoted demo
appears before every pre-existing augmented demo. -/
theorem call_demo_promotion (tpl : Template) (settings : Settings) (ex : Vals)
    (demos : List Vals) (show_guidelines : Bool) (lastF : Field)
    (rdemos ademos : List (List Msg)) (msgs : List Msg)
    (hqo : settings.query_only.getD false = false)
    (hlast : tpl.fields.getLast? = some lastF)
    (hrel : 20230928 ≤ settings.release)
    (hrd : (demos.filter (demoIsRaw lastF)).mapM (renderDemo tpl) = .ok rdemos)
    (had : (demos.filter demoIsAug).mapM (renderDemo tpl) = .ok ademos)
    (hok : templateCall tpl settings ex demos show_guidelines = .ok msgs) :
    ∃ u qmsgs, msgs =
      ⟨Role.user, u⟩ :: ⟨Role.assistant, "OK, I'm ready.".toList⟩ ::
        (((rdemos.filter (demoHasAllFields tpl (delTarget lastF ex))) ++ ademos).flatten
          ++ qmsgs) := by
  unfold templateCall at hok
  simp only [hqo, Bool.false_eq_true, if_false, hlast, hrd, had] at hok
  rw [if_pos hrel] at hok
  repeat' split at hok
  all_goals
    first
      | exact Except.noConfusion hok
      | exact ⟨_, _, (Except.ok.inj hok).symm⟩

/-- C10 witness: the promotion theorem applied to the concrete run in which
the raw demo `{question: "1+1?", answer: "2"}` is promoted ahead of the
(empty) augmented bucket. -/
theorem call_demo_promotion_witness :
    ∃ u qmsgs, msgsW =
      ⟨Role.user, u⟩ :: ⟨Role.assistant, "OK, I'm ready.".toList⟩ ::
        ((([demoWR] : List (List Msg)).filter
            (demoHasAllFields tplW (delTarget aF exW)) ++ []).flatten ++ qmsgs) :=
  call_demo_promotion tplW settings0 exW [demoW] false aF [demoWR] [] msgsW
    (by decide) (by decide) (by decide) (by decide) (by decide) (by decide)

end TemplateV2
